import Mathlib

/-!
# Verification of the modern-beep tone-synthesis core

Shallow embedding of the audio subsystem of `src/main.rs` of the
`modern-beep` command-line tool: the sample-budget computation, the
real-time output callback of `run_beep`, the format dispatch of
`generate_beep_tone`, and the repeat loop of `main`.

Modelling conventions:
* `f32` arithmetic on the sample budget and the phase accumulator is
  modelled exactly: the budget over `ℚ`, the phase accumulator over `ℕ`
  (it only ever holds the integers `0, 1, …, sample_rate - 1`).
* The trigonometric waveform value is modelled over `ℝ` with `Real.sin`.
* The cpal stream, generic over the sample type `T`, is modelled by a
  state machine parametric in the emitted sample type `α`, with
  `T::from_sample ∘ waveform` and `T::EQUILIBRIUM` as parameters.
-/

namespace ModernBeep

/-- Sample formats reported by the audio subsystem (cpal's `SampleFormat`). -/
inductive SampleFormat
  | i8 | i16 | i32 | i64 | u8 | u16 | u32 | u64 | f32 | f64
deriving DecidableEq

/-- `total_samples` from `run_beep` (src/main.rs line 307):
`(sample_rate * (duration_ms as f32 / 1000.0)) as usize`.
The `f32` arithmetic is modelled exactly over `ℚ`; the `as usize` cast
truncates the (non-negative) value, i.e. takes the floor. -/
def total_samples (sample_rate duration_ms : ℕ) : ℕ :=
  ⌊(sample_rate : ℚ) * ((duration_ms : ℚ) / 1000)⌋₊

/-- `frames_budget` as the specification words it:
`round(sample_rate * duration_ms / 1000)`, for comparison with
`total_samples` computed by the code. -/
def frames_budget_spec (sample_rate duration_ms : ℕ) : ℕ :=
  (round ((sample_rate : ℚ) * ((duration_ms : ℚ) / 1000))).toNat

/-- The waveform value of one frame (src/main.rs lines 321-322):
`(sample_clock * frequency * 2.0 * PI / sample_rate).sin() * 0.3`,
with the `f32` trigonometry modelled over `ℝ`. -/
noncomputable def waveSample (frequency sample_rate sample_clock : ℝ) : ℝ :=
  Real.sin (sample_clock * frequency * 2 * Real.pi / sample_rate) * 0.3

/-- The per-episode mutable state of `run_beep` (lines 306-308): the phase
accumulator `sample_clock` (an `f32` that only ever holds the integers
`0 … sample_rate - 1`, modelled over `ℕ`) and the counter `samples_played`. -/
structure PlaybackState where
  sample_clock : ℕ
  samples_played : ℕ
deriving DecidableEq

/-- The state at the start of each `run_beep` call (lines 306, 308):
`sample_clock = 0`, `samples_played = 0`, created afresh on every call. -/
def initState : PlaybackState := ⟨0, 0⟩

/-- The phase-accumulator advance (line 329):
`sample_clock = (sample_clock + 1.0) % sample_rate`. -/
def advanceClock (sample_rate c : ℕ) : ℕ := (c + 1) % sample_rate

/-- The stream parameters captured by the callback closure. `run_beep` is
generic over the cpal sample type `T`; `emit c` stands for
`T::from_sample(waveSample frequency sample_rate c)` (lines 321-323) and
`equilibrium` for `T::EQUILIBRIUM` (line 316). `total` is `total_samples`
and `channels` the negotiated channel count. -/
structure EpisodeCtx (α : Type) where
  emit : ℕ → α
  equilibrium : α
  sample_rate : ℕ
  total : ℕ
  channels : ℕ

/-- The callback body for one frame (lines 313-331): once
`samples_played >= total_samples`, write the equilibrium value to every
channel of the frame and leave the state untouched; otherwise write the
generator sample to every channel, advance the clock and the counter. -/
def stepFrame {α : Type} (ctx : EpisodeCtx α) (st : PlaybackState) :
    PlaybackState × List α :=
  if ctx.total ≤ st.samples_played then
    (st, List.replicate ctx.channels ctx.equilibrium)
  else
    (⟨advanceClock ctx.sample_rate st.sample_clock, st.samples_played + 1⟩,
      List.replicate ctx.channels (ctx.emit st.sample_clock))

/-- One callback invocation over a buffer of `n` frames
(the loop `for frame in data.chunks_mut(channels)`, line 313). -/
def runFrames {α : Type} (ctx : EpisodeCtx α) :
    ℕ → PlaybackState → PlaybackState × List (List α)
  | 0, st => (st, [])
  | n + 1, st =>
    let p := stepFrame ctx st
    let q := runFrames ctx n p.1
    (q.1, p.2 :: q.2)

/-- A whole sequence of callback invocations on one stream: the audio
subsystem asks for buffers of `bufs[0], bufs[1], …` frames in turn; the
closure state persists across invocations of the same stream. -/
def processCallbacks {α : Type} (ctx : EpisodeCtx α) :
    List ℕ → PlaybackState → PlaybackState × List (List α)
  | [], st => (st, [])
  | n :: rest, st =>
    let p := runFrames ctx n st
    let q := processCallbacks ctx rest p.1
    (q.1, p.2 ++ q.2)

/-- The frame contents at global frame index `N` of one episode: the
generator sample broadcast to all channels while `N < total`, the
equilibrium value on all channels afterwards. -/
def frameAt {α : Type} (ctx : EpisodeCtx α) (N : ℕ) : List α :=
  if N < ctx.total then List.replicate ctx.channels (ctx.emit (N % ctx.sample_rate))
  else List.replicate ctx.channels ctx.equilibrium

/-- One playback episode (`run_beep`): the callback state is created fresh
at every call. -/
def playEpisode {α : Type} (ctx : EpisodeCtx α) (bufs : List ℕ) :
    PlaybackState × List (List α) :=
  processCallbacks ctx bufs initState

/-- Two sequential `run_beep` calls with the same parameters, as done by the
repeat loop of `main`: each call initialises its closure state afresh, so no
state flows from the first episode into the second. -/
def twoEpisodes {α : Type} (ctx : EpisodeCtx α) (bufs1 bufs2 : List ℕ) :
    (PlaybackState × List (List α)) × (PlaybackState × List (List α)) :=
  (processCallbacks ctx bufs1 initState, processCallbacks ctx bufs2 initState)

/-- The default output configuration a device reports
(cpal's `SupportedStreamConfig`, as used on lines 283-288). -/
structure DeviceConfig where
  sampleFormat : SampleFormat
  sample_rate : ℕ
  channels : ℕ
deriving DecidableEq

/-- An output device; `defaultOutputConfig = none` models the failure of
`device.default_output_config()?` (line 283). -/
structure Device where
  defaultOutputConfig : Option DeviceConfig
deriving DecidableEq

/-- The audio host; `defaultOutputDevice = none` models the operating system
reporting no default output device (lines 280-281). -/
structure Host where
  defaultOutputDevice : Option Device
deriving DecidableEq

/-- Outcome of `generate_beep_tone`'s negotiation and dispatch: either the
call reaches `run_beep::<T>` for the format `T`, or it fails with the error
produced on the corresponding line. -/
inductive BeepResult
  | ran (fmt : SampleFormat) (cfg : DeviceConfig) (frequency : ℚ) (duration_ms : ℕ)
  | errNoDevice
  | errConfigQuery
  | errUnsupportedFormat
deriving DecidableEq

/-- `generate_beep_tone` (lines 278-291): query the default output device
(error `"No audio device available"` if none), query its default output
configuration, then dispatch on the native sample format, running
`run_beep::<f32>`, `run_beep::<i16>` or `run_beep::<u16>`, and failing with
`"Unsupported sample format"` on every other format. -/
def generate_beep_tone (host : Host) (frequency : ℚ) (duration_ms : ℕ) : BeepResult :=
  match host.defaultOutputDevice with
  | none => .errNoDevice
  | some device =>
    match device.defaultOutputConfig with
    | none => .errConfigQuery
    | some config =>
      match config.sampleFormat with
      | .f32 => .ran .f32 config frequency duration_ms
      | .i16 => .ran .i16 config frequency duration_ms
      | .u16 => .ran .u16 config frequency duration_ms
      | _ => .errUnsupportedFormat

/-- Observable events of the repeat loop in `main` (lines 388-401). -/
inductive MainEvent
  | sleepDelay (ms : ℕ)
  | playEpisodeEv (i : ℕ)
  | reportError (i : ℕ)
  | bell
  | verboseLog (i : ℕ)
deriving DecidableEq

/-- The events of iteration `i` of the repeat loop (lines 389-400): sleep
for `delay` if `i > 0`, invoke `generate_beep_tone`; on error, report it and
print the terminal bell `"\x07"`; on success log if verbose. `outcome i`
is `true` when iteration `i`'s `generate_beep_tone` returns `Ok`. -/
def iterEvents (outcome : ℕ → Bool) (verbose : Bool) (delay : ℕ) (i : ℕ) :
    List MainEvent :=
  (if 0 < i then [.sleepDelay delay] else []) ++
    [.playEpisodeEv i] ++
    (if outcome i then (if verbose then [.verboseLog i] else [])
     else [.reportError i, .bell])

/-- The full event trace of the repeat loop `for i in 0..repeats` (line 389). -/
def beepLoop (repeats : ℕ) (outcome : ℕ → Bool) (verbose : Bool) (delay : ℕ) :
    List MainEvent :=
  (List.range repeats).flatMap (iterEvents outcome verbose delay)

/-- Is this event a `generate_beep_tone` invocation? -/
def isPlay : MainEvent → Bool
  | .playEpisodeEv _ => true
  | _ => false

/-- Is this event an inter-repeat sleep? -/
def isSleep : MainEvent → Bool
  | .sleepDelay _ => true
  | _ => false

/-- Every sleep event in the trace is immediately followed by the playback
episode of a non-first iteration (`0 < i`). -/
def sleepBeforePlay : List MainEvent → Bool
  | .sleepDelay _ :: .playEpisodeEv i :: rest =>
    decide (0 < i) && sleepBeforePlay (.playEpisodeEv i :: rest)
  | .sleepDelay _ :: _ => false
  | _ :: rest => sleepBeforePlay rest
  | [] => true

/-- The trace does not end in a sleep event. -/
def lastNotSleep : List MainEvent → Bool
  | [] => true
  | [e] => !isSleep e
  | _ :: rest => lastNotSleep rest

/-- **C1** — counterexample. The spec says the frame budget is
`round(sample_rate * duration_ms / 1000)`, but the code truncates: at
`duration_ms = 999`, `sample_rate = 44100` the code computes
`⌊44055.9⌋ = 44055` while rounding gives `44056`. -/
theorem total_samples_not_round :
    total_samples 44100 999 = 44055 ∧
    frames_budget_spec 44100 999 = 44056 ∧
    total_samples 44100 999 ≠ frames_budget_spec 44100 999 := by
  have h1 : total_samples 44100 999 = 44055 := by
    rw [total_samples]
    refine (Nat.floor_eq_iff ?_).mpr ?_ <;> norm_num
  have h2 : frames_budget_spec 44100 999 = 44056 := by
    rw [frames_budget_spec]
    have hr : round (((44100 : ℕ) : ℚ) * (((999 : ℕ) : ℚ) / 1000)) = (44056 : ℤ) := by
      rw [round_eq, Int.floor_eq_iff]
      push_cast
      norm_num
    rw [hr]
    rfl
  refine ⟨h1, h2, ?_⟩
  rw [h1, h2]
  decide

/-- **C1** — amended. The frame budget the code computes is the
truncation `⌊sample_rate * duration_ms / 1000⌋`, i.e. natural-number
division `sample_rate * duration_ms / 1000`; in particular for
`duration_ms = 200` and `sample_rate = 44100` the budget is `8820`
(where truncation and rounding agree). -/
theorem total_samples_eq_div :
    (∀ sample_rate duration_ms : ℕ,
      total_samples sample_rate duration_ms = sample_rate * duration_ms / 1000) ∧
    total_samples 44100 200 = 8820 := by
  constructor
  · intro r D
    have h : ((r : ℚ) * ((D : ℚ) / 1000)) = ((r * D : ℕ) : ℚ) / ((1000 : ℕ) : ℚ) := by
      push_cast
      ring
    rw [total_samples, h, Nat.floor_div_nat, Nat.floor_natCast]
  · norm_num [total_samples]

/-- **C3** — for every frequency, sample rate and phase value the
waveform sample lies in `[-0.3, 0.3]`, and at phase accumulator `0`
it is exactly `0`. -/
theorem waveSample_bounded (frequency sample_rate sample_clock : ℝ) :
    waveSample frequency sample_rate 0 = 0 ∧
    -0.3 ≤ waveSample frequency sample_rate sample_clock ∧
    waveSample frequency sample_rate sample_clock ≤ 0.3 := by
  refine ⟨?_, ?_, ?_⟩
  · simp [waveSample]
  · have h := Real.neg_one_le_sin (sample_clock * frequency * 2 * Real.pi / sample_rate)
    unfold waveSample
    linarith
  · have h := Real.sin_le_one (sample_clock * frequency * 2 * Real.pi / sample_rate)
    unfold waveSample
    linarith

/-- Processing `m + n` frames is processing `m` frames and then `n` frames
from the resulting state, concatenating the outputs. -/
theorem runFrames_add {α : Type} (ctx : EpisodeCtx α) (m n : ℕ) (st : PlaybackState) :
    runFrames ctx (m + n) st =
      ((runFrames ctx n (runFrames ctx m st).1).1,
        (runFrames ctx m st).2 ++ (runFrames ctx n (runFrames ctx m st).1).2) := by
  induction m generalizing st with
  | zero => simp [runFrames]
  | succ m ih =>
    have h : m + 1 + n = (m + n) + 1 := by omega
    rw [h]
    simp [runFrames, ih]

/-- Closed form of the callback loop: starting from the reachable state
`⟨k % r, k⟩` with `k ≤ total`, processing `n` frames emits the specified
frames at global indices `k, k+1, …` and leaves the counter at
`min (k + n) total`. -/
theorem runFrames_closed {α : Type} (ctx : EpisodeCtx α) (n : ℕ) :
    ∀ k : ℕ, k ≤ ctx.total →
      runFrames ctx n ⟨k % ctx.sample_rate, k⟩ =
        (⟨min (k + n) ctx.total % ctx.sample_rate, min (k + n) ctx.total⟩,
          (List.range n).map (fun j => frameAt ctx (k + j))) := by
  induction n with
  | zero =>
    intro k hk
    simp [runFrames, Nat.min_eq_left hk]
  | succ n ih =>
    intro k hk
    rcases Nat.lt_or_ge k ctx.total with hlt | hge
    · have hstep : stepFrame ctx ⟨k % ctx.sample_rate, k⟩ =
          (⟨(k + 1) % ctx.sample_rate, k + 1⟩,
            List.replicate ctx.channels (ctx.emit (k % ctx.sample_rate))) := by
        simp [stepFrame, advanceClock, Nat.mod_add_mod, Nat.not_le.mpr hlt]
      have h1 : k + 1 ≤ ctx.total := hlt
      simp only [runFrames, hstep]
      rw [ih (k + 1) h1]
      have hidx : k + 1 + n = k + (n + 1) := by omega
      rw [hidx]
      congr 1
      rw [List.range_succ_eq_map, List.map_cons, List.map_map]
      congr 1
      · simp [frameAt, hlt]
      · refine List.map_congr_left ?_
        intro j hj
        simp only [Function.comp]
        congr 1
        omega
    · have hstep : stepFrame ctx ⟨k % ctx.sample_rate, k⟩ =
          (⟨k % ctx.sample_rate, k⟩, List.replicate ctx.channels ctx.equilibrium) := by
        simp [stepFrame, hge]
      simp only [runFrames, hstep]
      rw [ih k hk]
      have hmin1 : min (k + n) ctx.total = ctx.total :=
        Nat.min_eq_right (hge.trans (Nat.le_add_right _ _))
      have hmin2 : min (k + (n + 1)) ctx.total = ctx.total :=
        Nat.min_eq_right (hge.trans (Nat.le_add_right _ _))
      rw [hmin1, hmin2]
      have heq : k = ctx.total := le_antisymm hk hge
      congr 1
      rw [List.range_succ_eq_map, List.map_cons, List.map_map]
      congr 1
      · have h0 : ¬ (k < ctx.total) := by omega
        simp [frameAt, h0]
      · refine List.map_congr_left ?_
        intro j hj
        have ha : ¬ (k + j < ctx.total) := by omega
        have hb : ¬ (k + (j + 1) < ctx.total) := by omega
        simp [frameAt, Function.comp, ha, hb]

/-- Buffer boundaries are invisible: a sequence of callback invocations is
the same as one run over the total number of requested frames. -/
theorem processCallbacks_eq {α : Type} (ctx : EpisodeCtx α) (bufs : List ℕ)
    (st : PlaybackState) :
    processCallbacks ctx bufs st = runFrames ctx bufs.sum st := by
  induction bufs generalizing st with
  | nil => simp [processCallbacks, runFrames]
  | cons b rest ih => simp [processCallbacks, ih, runFrames_add]

/-- Closed form of a whole episode started from the fresh state. -/
theorem playEpisode_spec {α : Type} (ctx : EpisodeCtx α) (bufs : List ℕ) :
    playEpisode ctx bufs =
      (⟨min bufs.sum ctx.total % ctx.sample_rate, min bufs.sum ctx.total⟩,
        (List.range bufs.sum).map (frameAt ctx)) := by
  have h0 : initState = (⟨0 % ctx.sample_rate, 0⟩ : PlaybackState) := by
    simp [initState]
  rw [playEpisode, processCallbacks_eq, h0,
    runFrames_closed ctx bufs.sum 0 (Nat.zero_le _)]
  simp

/-- The counter never exceeds the budget: it is checked before each
increment. -/
theorem runFrames_played_le {α : Type} (ctx : EpisodeCtx α) :
    ∀ (n : ℕ) (st : PlaybackState), st.samples_played ≤ ctx.total →
      (runFrames ctx n st).1.samples_played ≤ ctx.total := by
  intro n
  induction n with
  | zero =>
    intro st h
    simpa [runFrames] using h
  | succ n ih =>
    intro st h
    by_cases hc : ctx.total ≤ st.samples_played
    · simpa [runFrames, stepFrame, hc] using ih st h
    · have h' : st.samples_played + 1 ≤ ctx.total := Nat.not_le.mp hc
      simpa [runFrames, stepFrame, hc] using
        ih ⟨advanceClock ctx.sample_rate st.sample_clock, st.samples_played + 1⟩ h'

/-- Once the budget is exhausted the state is frozen and every frame is the
equilibrium value on every channel. -/
theorem runFrames_exhausted {α : Type} (ctx : EpisodeCtx α) :
    ∀ (n : ℕ) (st : PlaybackState), ctx.total ≤ st.samples_played →
      runFrames ctx n st =
        (st, List.replicate n (List.replicate ctx.channels ctx.equilibrium)) := by
  intro n
  induction n with
  | zero =>
    intro st h
    simp [runFrames]
  | succ n ih =>
    intro st h
    simp [runFrames, stepFrame, h, ih st h, List.replicate_succ]

/-- **C2** — over any sequence of callback invocations of one episode, the
frame at global index `N` carries the generator's sample (converted to the
native format) on every channel while `N < frames_budget`, and the
equilibrium value on every channel for every `N ≥ frames_budget`: exactly
`frames_budget` generator frames are emitted before permanent silence. -/
theorem callback_frames_spec {α : Type} (ctx : EpisodeCtx α) (bufs : List ℕ) :
    (playEpisode ctx bufs).2 =
      (List.range bufs.sum).map (fun N =>
        if N < ctx.total then
          List.replicate ctx.channels (ctx.emit (N % ctx.sample_rate))
        else List.replicate ctx.channels ctx.equilibrium) := by
  rw [playEpisode_spec]
  rfl

/-- **C4** — the phase accumulator starts at `0`; iterating the advance
`(sample_clock + 1.0) % sample_rate` `N` times from `0` yields exactly
`N % sample_rate`, which stays in `[0, sample_rate)` — it never grows
unbounded. -/
theorem phase_accumulator_mod (sample_rate N : ℕ) (hr : 0 < sample_rate) :
    initState.sample_clock = 0 ∧
    (advanceClock sample_rate)^[N] 0 = N % sample_rate ∧
    (advanceClock sample_rate)^[N] 0 < sample_rate := by
  have key : ∀ M : ℕ, (advanceClock sample_rate)^[M] 0 = M % sample_rate := by
    intro M
    induction M with
    | zero => simp
    | succ M ih =>
      rw [Function.iterate_succ_apply', ih, advanceClock, Nat.mod_add_mod]
  refine ⟨rfl, key N, ?_⟩
  rw [key N]
  exact Nat.mod_lt _ hr

/-- Witness for **C4** at `sample_rate = 3`, `N = 7`. -/
theorem phase_accumulator_mod_witness :
    initState.sample_clock = 0 ∧
    (advanceClock 3)^[7] 0 = 7 % 3 ∧
    (advanceClock 3)^[7] 0 < 3 :=
  phase_accumulator_mod 3 7 (by decide)

/-- **C5** — two `run_beep` episodes with identical tone request and stream
configuration produce identical final states and identical emitted frame
sequences, for any two callback schedules requesting the same total number
of frames: each call initialises `sample_clock` and `samples_played`
afresh, so no state is carried from the first episode into the second. -/
theorem two_episodes_identical {α : Type} (ctx : EpisodeCtx α)
    (bufs1 bufs2 : List ℕ) (h : bufs1.sum = bufs2.sum) :
    (twoEpisodes ctx bufs1 bufs2).1 = (twoEpisodes ctx bufs1 bufs2).2 := by
  show processCallbacks ctx bufs1 initState = processCallbacks ctx bufs2 initState
  rw [processCallbacks_eq, processCallbacks_eq, h]

/-- Witness for **C5**: schedules `[2, 1]` and `[3]` of the same episode. -/
theorem two_episodes_identical_witness :
    (twoEpisodes (EpisodeCtx.mk (fun c => (c : ℤ)) 0 4 2 2) [2, 1] [3]).1 =
    (twoEpisodes (EpisodeCtx.mk (fun c => (c : ℤ)) 0 4 2 2) [2, 1] [3]).2 :=
  two_episodes_identical (EpisodeCtx.mk (fun c => (c : ℤ)) 0 4 2 2) [2, 1] [3]
    (by decide)

/-- **C8** — `duration_ms = 0` yields a zero frame budget, and an episode
whose budget is `0` emits only equilibrium (silence) frames. -/
theorem zero_duration_silent {α : Type} :
    (∀ sample_rate : ℕ, total_samples sample_rate 0 = 0) ∧
    ∀ (ctx : EpisodeCtx α) (bufs : List ℕ), ctx.total = 0 →
      (playEpisode ctx bufs).2 =
        List.replicate bufs.sum (List.replicate ctx.channels ctx.equilibrium) := by
  constructor
  · intro r
    simp [total_samples]
  · intro ctx bufs h0
    have hz : ctx.total ≤ initState.samples_played := by
      rw [h0]
      exact Nat.zero_le _
    rw [playEpisode, processCallbacks_eq, runFrames_exhausted ctx bufs.sum initState hz]

/-- Witness for **C8** at `sample_rate = 48000` and a zero-budget episode
over the callback schedule `[3, 2]`. -/
theorem zero_duration_silent_witness :
    total_samples 48000 0 = 0 ∧
    (playEpisode (EpisodeCtx.mk (fun c => (c : ℤ)) 0 2 0 2) [3, 2]).2 =
      List.replicate 5 (List.replicate 2 (0 : ℤ)) := by
  refine ⟨(zero_duration_silent (α := ℤ)).1 48000, ?_⟩
  have h := (zero_duration_silent (α := ℤ)).2
    (EpisodeCtx.mk (fun c => (c : ℤ)) 0 2 0 2) [3, 2] rfl
  simpa using h

/-- **C10** — from any state whose counter respects the budget,
`samples_played` never exceeds `total_samples` (the comparison guards each
increment); and once `samples_played` has reached `total_samples`, no later
frame modifies the state — every subsequent frame is a pure equilibrium
write. -/
theorem samples_played_invariant {α : Type} (ctx : EpisodeCtx α)
    (st : PlaybackState) (n : ℕ) (h : st.samples_played ≤ ctx.total) :
    (runFrames ctx n st).1.samples_played ≤ ctx.total ∧
    (st.samples_played = ctx.total →
      (runFrames ctx n st).1 = st ∧
      (runFrames ctx n st).2 =
        List.replicate n (List.replicate ctx.channels ctx.equilibrium)) := by
  refine ⟨runFrames_played_le ctx n st h, fun he => ?_⟩
  rw [runFrames_exhausted ctx n st he.ge]
  exact ⟨rfl, rfl⟩

/-- Witness for **C10** at a concrete exhausted state `⟨1, 3⟩` with budget
`3`, processing `4` further frames. -/
theorem samples_played_invariant_witness :
    (runFrames (EpisodeCtx.mk (fun c => (c : ℤ)) 0 2 3 2) 4
        ⟨1, 3⟩).1.samples_played ≤ 3 ∧
    (runFrames (EpisodeCtx.mk (fun c => (c : ℤ)) 0 2 3 2) 4 ⟨1, 3⟩).1 = ⟨1, 3⟩ ∧
    (runFrames (EpisodeCtx.mk (fun c => (c : ℤ)) 0 2 3 2) 4 ⟨1, 3⟩).2 =
      List.replicate 4 (List.replicate 2 (0 : ℤ)) := by
  have h := samples_played_invariant (EpisodeCtx.mk (fun c => (c : ℤ)) 0 2 3 2)
    ⟨1, 3⟩ 4 (by decide)
  exact ⟨h.1, (h.2 rfl).1, (h.2 rfl).2⟩

/-- **C6** — `generate_beep_tone` fails with the no-device error when the
operating system reports no default output device, fails with the
unsupported-format error when the device's native format is outside
`{F32, I16, U16}`, and otherwise dispatches `run_beep` at the matching
format variant. -/
theorem generate_beep_tone_dispatch (host : Host) (frequency : ℚ)
    (duration_ms : ℕ) :
    (host.defaultOutputDevice = none →
      generate_beep_tone host frequency duration_ms = .errNoDevice) ∧
    (∀ device config, host.defaultOutputDevice = some device →
      device.defaultOutputConfig = some config →
      ((config.sampleFormat ≠ .f32 ∧ config.sampleFormat ≠ .i16 ∧
          config.sampleFormat ≠ .u16) →
        generate_beep_tone host frequency duration_ms = .errUnsupportedFormat) ∧
      ((config.sampleFormat = .f32 ∨ config.sampleFormat = .i16 ∨
          config.sampleFormat = .u16) →
        generate_beep_tone host frequency duration_ms =
          .ran config.sampleFormat config frequency duration_ms)) := by
  constructor
  · intro h
    simp [generate_beep_tone, h]
  · intro device config hdev hcfg
    constructor
    · rintro ⟨h1, h2, h3⟩
      cases hfmt : config.sampleFormat <;>
        simp_all [generate_beep_tone, hdev, hcfg]
    · intro hin
      rcases hin with h | h | h <;> simp [generate_beep_tone, hdev, hcfg, h]

/-- Witness for **C6**: no device, an `I16` device, and an `F64` device. -/
theorem generate_beep_tone_dispatch_witness :
    generate_beep_tone (Host.mk none) 440 200 = .errNoDevice ∧
    generate_beep_tone
        (Host.mk (some (Device.mk (some (DeviceConfig.mk .i16 44100 2))))) 440 200 =
      .ran .i16 (DeviceConfig.mk .i16 44100 2) 440 200 ∧
    generate_beep_tone
        (Host.mk (some (Device.mk (some (DeviceConfig.mk .f64 44100 2))))) 440 200 =
      .errUnsupportedFormat := by
  refine ⟨?_, ?_, ?_⟩
  · exact (generate_beep_tone_dispatch (Host.mk none) 440 200).1 rfl
  · exact ((generate_beep_tone_dispatch
      (Host.mk (some (Device.mk (some (DeviceConfig.mk .i16 44100 2))))) 440 200).2
      (Device.mk (some (DeviceConfig.mk .i16 44100 2)))
      (DeviceConfig.mk .i16 44100 2) rfl rfl).2 (Or.inr (Or.inl rfl))
  · exact ((generate_beep_tone_dispatch
      (Host.mk (some (Device.mk (some (DeviceConfig.mk .f64 44100 2))))) 440 200).2
      (Device.mk (some (DeviceConfig.mk .f64 44100 2)))
      (DeviceConfig.mk .f64 44100 2) rfl rfl).1
      ⟨by decide, by decide, by decide⟩

/-- Unfolding one iteration of the repeat loop. -/
theorem beepLoop_succ (n : ℕ) (o : ℕ → Bool) (v : Bool) (d : ℕ) :
    beepLoop (n + 1) o v d = beepLoop n o v d ++ iterEvents o v d n := by
  rw [beepLoop, beepLoop, List.range_succ, List.flatMap_append]
  simp

/-- Every loop iteration invokes `generate_beep_tone` exactly once. -/
theorem iterEvents_countP_play (o : ℕ → Bool) (v : Bool) (d i : ℕ) :
    (iterEvents o v d i).countP isPlay = 1 := by
  rw [iterEvents]
  split_ifs <;> simp [List.countP_append, List.countP_cons, isPlay]

/-- A loop iteration sleeps exactly when it is not the first. -/
theorem iterEvents_countP_sleep (o : ℕ → Bool) (v : Bool) (d i : ℕ) :
    (iterEvents o v d i).countP isSleep = if 0 < i then 1 else 0 := by
  rw [iterEvents]
  split_ifs <;> simp [List.countP_append, List.countP_cons, isSleep]

/-- The trace of `n` repetitions contains exactly `n` playback episodes. -/
theorem beepLoop_countP_play (n : ℕ) (o : ℕ → Bool) (v : Bool) (d : ℕ) :
    (beepLoop n o v d).countP isPlay = n := by
  induction n with
  | zero => rfl
  | succ n ih => rw [beepLoop_succ, List.countP_append, ih, iterEvents_countP_play]

/-- The trace of `n` repetitions contains exactly `n - 1` sleeps. -/
theorem beepLoop_countP_sleep (n : ℕ) (o : ℕ → Bool) (v : Bool) (d : ℕ) :
    (beepLoop n o v d).countP isSleep = n - 1 := by
  induction n with
  | zero => rfl
  | succ n ih =>
    rw [beepLoop_succ, List.countP_append, ih, iterEvents_countP_sleep]
    rcases Nat.eq_zero_or_pos n with h | h
    · subst h
      simp
    · rw [if_pos h]
      omega

/-- Every iteration block satisfies the sleep-then-play shape. -/
theorem iterEvents_sbp (o : ℕ → Bool) (v : Bool) (d i : ℕ) :
    sleepBeforePlay (iterEvents o v d i) = true := by
  rw [iterEvents]
  rcases Nat.eq_zero_or_pos i with hi | hi
  · subst hi
    simp only [if_neg (lt_irrefl 0)]
    cases ho : o 0 <;> cases v <;> simp [sleepBeforePlay]
  · simp only [if_pos hi]
    cases ho : o i <;> cases v <;> simp [sleepBeforePlay, hi]

/-- No iteration block ends in a sleep event. -/
theorem iterEvents_lastNotSleep (o : ℕ → Bool) (v : Bool) (d i : ℕ) :
    lastNotSleep (iterEvents o v d i) = true := by
  rw [iterEvents]
  rcases Nat.eq_zero_or_pos i with hi | hi
  · subst hi
    simp only [if_neg (lt_irrefl 0)]
    cases ho : o 0 <;> cases v <;> simp [lastNotSleep, isSleep]
  · simp only [if_pos hi]
    cases ho : o i <;> cases v <;> simp [lastNotSleep, isSleep]

/-- `lastNotSleep` only looks at the (nonempty) suffix. -/
theorem lastNotSleep_append (xs ys : List MainEvent)
    (hy : lastNotSleep ys = true) (hne : ys ≠ []) :
    lastNotSleep (xs ++ ys) = true := by
  induction xs with
  | nil => simpa using hy
  | cons e rest ih =>
    rcases rest with _ | ⟨e', rest'⟩
    · rcases ys with _ | ⟨y, ys'⟩
      · exact absurd rfl hne
      · simpa [lastNotSleep] using hy
    · simpa [lastNotSleep] using ih

/-- The sleep-then-play shape is preserved by concatenation as long as the
prefix does not end in a sleep. -/
theorem sleepBeforePlay_append (xs ys : List MainEvent)
    (hx : sleepBeforePlay xs = true) (hy : sleepBeforePlay ys = true)
    (hlast : lastNotSleep xs = true) :
    sleepBeforePlay (xs ++ ys) = true := by
  induction xs with
  | nil => simpa using hy
  | cons e rest ih =>
    cases e
    case sleepDelay m =>
      rcases rest with _ | ⟨e', rest'⟩
      · simp [sleepBeforePlay] at hx
      · cases e'
        case playEpisodeEv i =>
          have hx' : 0 < i ∧
              sleepBeforePlay (MainEvent.playEpisodeEv i :: rest') = true := by
            simpa [sleepBeforePlay, Bool.and_eq_true, decide_eq_true_eq] using hx
          have hlast' :
              lastNotSleep (MainEvent.playEpisodeEv i :: rest') = true := by
            simpa [lastNotSleep] using hlast
          have h2 := ih hx'.2 hlast'
          simp only [List.cons_append] at h2 ⊢
          simp only [sleepBeforePlay] at h2
          simp [sleepBeforePlay, hx'.1, h2]
        case sleepDelay m' => simp [sleepBeforePlay] at hx
        case reportError j => simp [sleepBeforePlay] at hx
        case bell => simp [sleepBeforePlay] at hx
        case verboseLog j => simp [sleepBeforePlay] at hx
    all_goals
      have hx' : sleepBeforePlay rest = true := by
        simpa [sleepBeforePlay] using hx
    all_goals
      have hlast' : lastNotSleep rest = true := by
        rcases rest with _ | ⟨e', rest'⟩
        · rfl
        · simpa [lastNotSleep] using hlast
    all_goals
      have h2 := ih hx' hlast'
    all_goals simpa [sleepBeforePlay, List.cons_append] using h2

/-- No repeat-loop trace ends in a sleep event. -/
theorem beepLoop_lastNotSleep (n : ℕ) (o : ℕ → Bool) (v : Bool) (d : ℕ) :
    lastNotSleep (beepLoop n o v d) = true := by
  cases n with
  | zero => rfl
  | succ n =>
    rw [beepLoop_succ]
    refine lastNotSleep_append _ _ (iterEvents_lastNotSleep o v d n) ?_
    rw [iterEvents]
    split_ifs <;> simp

/-- In every repeat-loop trace, each sleep is immediately followed by the
playback episode of a non-first iteration. -/
theorem beepLoop_sbp (n : ℕ) (o : ℕ → Bool) (v : Bool) (d : ℕ) :
    sleepBeforePlay (beepLoop n o v d) = true := by
  induction n with
  | zero => rfl
  | succ n ih =>
    rw [beepLoop_succ]
    exact sleepBeforePlay_append _ _ ih (iterEvents_sbp o v d n)
      (beepLoop_lastNotSleep n o v d)

/-- Every iteration's `generate_beep_tone` invocation appears in the trace. -/
theorem mem_beepLoop_play (n : ℕ) (o : ℕ → Bool) (v : Bool) (d j : ℕ)
    (hj : j < n) :
    MainEvent.playEpisodeEv j ∈ beepLoop n o v d := by
  rw [beepLoop]
  refine List.mem_flatMap.mpr ⟨j, List.mem_range.mpr hj, ?_⟩
  rw [iterEvents]
  simp

/-- A failing iteration reports the error and rings the terminal bell. -/
theorem mem_beepLoop_error (n : ℕ) (o : ℕ → Bool) (v : Bool) (d i : ℕ)
    (hi : i < n) (hf : o i = false) :
    MainEvent.reportError i ∈ beepLoop n o v d ∧
      MainEvent.bell ∈ beepLoop n o v d := by
  constructor <;>
  · rw [beepLoop]
    refine List.mem_flatMap.mpr ⟨i, List.mem_range.mpr hi, ?_⟩
    rw [iterEvents, hf]
    simp

/-- **C7** — when iteration `i` of the repeat loop fails, the error is
reported and the terminal-bell fallback is emitted, and every repetition
(including those after the failure) still invokes its playback episode:
no audio failure aborts the repeat sequence. -/
theorem episode_failure_nonfatal (n : ℕ) (o : ℕ → Bool) (v : Bool) (d i : ℕ)
    (hi : i < n) (hf : o i = false) :
    MainEvent.reportError i ∈ beepLoop n o v d ∧
    MainEvent.bell ∈ beepLoop n o v d ∧
    ∀ j, j < n → MainEvent.playEpisodeEv j ∈ beepLoop n o v d := by
  refine ⟨(mem_beepLoop_error n o v d i hi hf).1,
    (mem_beepLoop_error n o v d i hi hf).2, ?_⟩
  intro j hj
  exact mem_beepLoop_play n o v d j hj

/-- Witness for **C7**: two repetitions, both failing; the failure of
iteration `0` is reported and belled, and iteration `1` still plays. -/
theorem episode_failure_nonfatal_witness :
    MainEvent.reportError 0 ∈ beepLoop 2 (fun _ => false) false 100 ∧
    MainEvent.bell ∈ beepLoop 2 (fun _ => false) false 100 ∧
    MainEvent.playEpisodeEv 1 ∈ beepLoop 2 (fun _ => false) false 100 := by
  have h := episode_failure_nonfatal 2 (fun _ => false) false 100 0 (by decide) rfl
  exact ⟨h.1, h.2.1, h.2.2 1 (by decide)⟩

/-- **C9** — `repeat_count = 0` produces the empty trace (no episode, no
delay); `repeat_count = n` produces exactly `n` playback invocations and
exactly `n - 1` inter-repeat sleeps, and each sleep immediately precedes
the episode of a non-first iteration. -/
theorem repeat_loop_structure (n : ℕ) (o : ℕ → Bool) (v : Bool) (d : ℕ) :
    beepLoop 0 o v d = [] ∧
    (beepLoop n o v d).countP isPlay = n ∧
    (beepLoop n o v d).countP isSleep = n - 1 ∧
    sleepBeforePlay (beepLoop n o v d) = true :=
  ⟨rfl, beepLoop_countP_play n o v d, beepLoop_countP_sleep n o v d,
    beepLoop_sbp n o v d⟩

end ModernBeep
